import Mathlib

/-!
Shallow embedding of two administrative cleanup scripts:

* `util/drop_dop_tables/drop_dop_tables.py` — drops a fixed list of tables
  after an inactivity check, dropping foreign-key constraints first.
* `util/jenkins/retired_user_cert_remover/retired_user_cert_remover.py` —
  deletes two S3 objects per certificate record of retired users.

Both scripts are modelled as pure functions producing a trace of events
(log lines, SQL statements executed, S3 delete calls).  The database is
modelled as a read-only snapshot: the rows of `information_schema.tables`
(schema name, table name, optional CREATE_TIME / UPDATE_TIME) and a lookup
function giving the foreign-key constraint name, if any, for a
(schema, table, referenced table) triple.  Timestamps are seconds since
the epoch as natural numbers.  S3 delete outcomes are given by an oracle
from object key to "does this delete raise ClientError".
-/

/-- One row of `information_schema.tables` as the scripts see it:
the schema it belongs to, the table name, and the optional
CREATE_TIME and UPDATE_TIME columns (NULL modelled as `none`). -/
structure TableRow where
  tableSchema : String
  tableName : String
  createTime : Option Nat
  updateTime : Option Nat
  deriving DecidableEq, Repr

/-- Read-only snapshot of the MySQL server the script connects to. -/
structure DBState where
  /-- All rows of `information_schema.tables` on the server (every schema). -/
  infoTables : List TableRow
  /-- Constraint-name lookup backing the `KEY_COLUMN_USAGE` query in
  `drop_foreign_key`: given TABLE_SCHEMA, TABLE_NAME and
  REFERENCED_TABLE_NAME, the CONSTRAINT_NAME of the first matching row,
  or `none` when no foreign key enforces that relationship. -/
  constraintOf : String → String → String → Option String

/-- Observable events of a run: log lines (structured, one constructor per
format string in the source) and the statements / service calls issued. -/
inductive Event where
  | logSkipTable (table : String) (activity : Nat)
  | logAllInactive
  | logWouldDropFK (table constraint : String)
  | execDropFK (table constraint : String)
  | commit
  | logDroppedFK (table constraint : String)
  | logDroppingTable (table : String)
  | logWouldDropTable (table : String)
  | execDropTable (table : String)
  | logDroppedTable (table : String)
  | closeConn
  | logCleanupDone
  | logDeleting (key : String)
  | logWouldDelete (key : String)
  | deleteObject (bucket key : String)
  | logDeleteError (verifyKey downloadKey : String)
  deriving DecidableEq, Repr

/-- The static drop list `TABLES_TO_DROP` of `drop_dop_tables.py`. -/
def TABLES_TO_DROP : List String := [
  "third_party_auth_providerapipermissions",
  "oauth2_provider_trustedclient",
  "oauth2_grant",
  "oauth2_accesstoken",
  "oauth2_refreshtoken",
  "oauth_provider_token",
  "oauth_provider_consumer",
  "oauth2_client",
  "oauth_provider_scope",
  "oauth_provider_nonce"
]

/-- The static dependency map `FK_DEPENDENCIES` of `drop_dop_tables.py`,
kept as an association list in the dict's insertion order. -/
def FK_DEPENDENCIES : List (String × List String) := [
  ("third_party_auth_providerapipermissions", ["oauth2_client"]),
  ("oauth2_provider_trustedclient", ["oauth2_client"]),
  ("oauth2_grant", ["oauth2_client", "auth_user"]),
  ("oauth2_accesstoken", ["oauth2_client", "auth_user"]),
  ("oauth2_refreshtoken", ["oauth2_accesstoken", "oauth2_client", "auth_user"]),
  ("oauth_provider_token", ["oauth_provider_consumer", "oauth_provider_scope", "auth_user"]),
  ("oauth_provider_consumer", ["auth_user"])
]

/-- Seconds in a day; `timedelta(days=365)` is `365 * secondsPerDay`. -/
def secondsPerDay : Nat := 86400

/-- The guard threshold `one_year_ago = datetime.now() - timedelta(days=365)`. -/
def one_year_ago (now : Nat) : Nat := now - 365 * secondsPerDay

/-- Value of `GREATEST(COALESCE(UPDATE_TIME, '1970-01-01'), COALESCE(CREATE_TIME, '1970-01-01'))`
for one row: NULL columns coalesce to the epoch (0). -/
def rowActivity (r : TableRow) : Nat :=
  max (r.updateTime.getD 0) (r.createTime.getD 0)

/-- SQL `MAX` aggregate of `rowActivity` over a group of rows:
NULL (`none`) on the empty group. -/
def aggActivity : List TableRow → Option Nat
  | [] => none
  | r :: rs => some (rs.foldl (fun acc row => max acc (rowActivity row)) (rowActivity r))

/-- `get_last_activity_date`: runs
`SELECT MAX(GREATEST(COALESCE(UPDATE_TIME,...), COALESCE(CREATE_TIME,...)))
FROM information_schema.tables WHERE TABLE_NAME = '{table_name}'`.
Note the WHERE clause filters on TABLE_NAME only — there is no
TABLE_SCHEMA condition — so the group aggregated over is every row on the
server whose table name matches, whatever schema it lives in.  Returns
`none` ("no activity") when the aggregate is NULL, i.e. no row matched. -/
def get_last_activity_date (db : DBState) (table_name : String) : Option Nat :=
  aggActivity (db.infoTables.filter (fun r => r.tableName == table_name))

/-- The `for table in TABLES_TO_DROP` loop of
`check_all_tables_before_proceeding`, over an arbitrary remaining list:
returns the decision together with the log events emitted.  The loop
stops at the first table whose fetched activity is truthy and strictly
more recent than the threshold. -/
def checkTablesLoop (db : DBState) (oneYearAgo : Nat) : List String → Bool × List Event
  | [] => (true, [Event.logAllInactive])
  | t :: rest =>
    match get_last_activity_date db t with
    | some a =>
      if oneYearAgo < a then (false, [Event.logSkipTable t a])
      else checkTablesLoop db oneYearAgo rest
    | none => checkTablesLoop db oneYearAgo rest

/-- `check_all_tables_before_proceeding`: the inactivity guard over the
static drop list; `true` means proceed, `false` means skip everything. -/
def check_all_tables_before_proceeding (db : DBState) (now : Nat) : Bool × List Event :=
  checkTablesLoop db (one_year_ago now) TABLES_TO_DROP

/-- `drop_foreign_key`: look up the constraint name for
(db_name, table_name, referenced_table) in KEY_COLUMN_USAGE; if none is
found, do nothing; otherwise either log the intended drop (dry run) or
execute `ALTER TABLE ... DROP FOREIGN KEY ...`, commit, and log it. -/
def drop_foreign_key (db : DBState) (db_name table_name referenced_table : String)
    (dry_run : Bool) : List Event :=
  match db.constraintOf db_name table_name referenced_table with
  | none => []
  | some c =>
    if dry_run then [Event.logWouldDropFK table_name c]
    else [Event.execDropFK table_name c, Event.commit, Event.logDroppedFK table_name c]

/-- Inner loop `for referenced_table in referenced_tables` of `drop_tables`. -/
def fkLoopRefs (db : DBState) (db_name table : String) (dry_run : Bool) :
    List String → List Event
  | [] => []
  | r :: rs => drop_foreign_key db db_name table r dry_run ++ fkLoopRefs db db_name table dry_run rs

/-- Outer loop `for table, referenced_tables in FK_DEPENDENCIES.items()`. -/
def fkLoop (db : DBState) (db_name : String) (dry_run : Bool) :
    List (String × List String) → List Event
  | [] => []
  | p :: ps => fkLoopRefs db db_name p.1 dry_run p.2 ++ fkLoop db db_name dry_run ps

/-- `drop_table`: logs the attempt, then either logs the intended drop
(dry run) or executes `DROP TABLE IF EXISTS`, commits and logs success. -/
def drop_table (table_name : String) (dry_run : Bool) : List Event :=
  Event.logDroppingTable table_name ::
    (if dry_run then [Event.logWouldDropTable table_name]
     else [Event.execDropTable table_name, Event.commit, Event.logDroppedTable table_name])

/-- The `for table in TABLES_TO_DROP` drop loop of `drop_tables`. -/
def tableLoop (dry_run : Bool) : List String → List Event
  | [] => []
  | t :: ts => drop_table t dry_run ++ tableLoop dry_run ts

/-- The body of the `drop_tables` command after connecting: run the guard;
on proceed, drop all constraints of the dependency map, then drop every
table of the drop list, close the connection and log success; on skip,
do nothing further. -/
def drop_tables (db : DBState) (db_name : String) (dry_run : Bool) (now : Nat) : List Event :=
  let g := check_all_tables_before_proceeding db now
  if g.1 then
    g.2 ++ fkLoop db db_name dry_run FK_DEPENDENCIES ++ tableLoop dry_run TABLES_TO_DROP
      ++ [Event.closeConn, Event.logCleanupDone]
  else g.2

/-- Events that are an `ALTER TABLE ... DROP FOREIGN KEY` statement. -/
def isConstraintDrop : Event → Bool
  | Event.execDropFK _ _ => true
  | _ => false

/-- Events that are a `DROP TABLE` statement. -/
def isTableDrop : Event → Bool
  | Event.execDropTable _ => true
  | _ => false

/-- Events that are an S3 `delete_object` call. -/
def isStorageDelete : Event → Bool
  | Event.deleteObject _ _ => true
  | _ => false

/-- Mutating operations: the two DDL statements and the storage delete. -/
def isMutating (e : Event) : Bool :=
  isConstraintDrop e || isTableDrop e || isStorageDelete e

/-- Dry-run announcement line of a constraint drop. -/
def isWouldDropFKLog : Event → Bool
  | Event.logWouldDropFK _ _ => true
  | _ => false

/-- Dry-run announcement line of a table drop. -/
def isWouldDropTableLog : Event → Bool
  | Event.logWouldDropTable _ => true
  | _ => false

/-- Dry-run announcement line of a storage delete. -/
def isWouldDeleteLog : Event → Bool
  | Event.logWouldDelete _ => true
  | _ => false

/-- One row of the certificate query of `retired_user_cert_remover.py`,
in the SELECT's column order; `delete_certificates_from_s3` reads
`cert[4]` (DOWNLOAD_UUID) and `cert[5]` (VERIFY_UUID). -/
structure Certificate where
  lms_user_id : Nat
  course_run_id : String
  certificate_id : Nat
  download_url : String
  download_uuid : String
  verify_uuid : String
  deriving DecidableEq, Repr

/-- The fixed bucket the script deletes from. -/
def certBucket : String := "verify.edx.org"

/-- The verify-location key derived for a record: `cert/{verify_uuid}`. -/
def verifyKey (c : Certificate) : String := "cert/" ++ c.verify_uuid

/-- The download-location key derived for a record:
`downloads/{download_uuid}/Certificate.pdf`. -/
def downloadKey (c : Certificate) : String :=
  "downloads/" ++ c.download_uuid ++ "/Certificate.pdf"

/-- One iteration of the `for cert in certificates` loop of
`delete_certificates_from_s3`.  `s3Fails key` says whether
`delete_object` on that key raises `ClientError` (after its bounded
retries are exhausted).  Both deletes of a record sit in one `try`
block, whose `except ClientError` handler logs the error; a failed
verify delete therefore skips the download delete of the same record. -/
def processCert (s3Fails : String → Bool) (c : Certificate) (dry_run : Bool) : List Event :=
  if dry_run then
    [Event.logWouldDelete (verifyKey c), Event.logWouldDelete (downloadKey c)]
  else
    Event.logDeleting (verifyKey c) ::
      Event.deleteObject certBucket (verifyKey c) ::
        (if s3Fails (verifyKey c) then
          [Event.logDeleteError (verifyKey c) (downloadKey c)]
        else
          Event.logDeleting (downloadKey c) ::
            Event.deleteObject certBucket (downloadKey c) ::
              (if s3Fails (downloadKey c) then
                [Event.logDeleteError (verifyKey c) (downloadKey c)]
              else []))

/-- `delete_certificates_from_s3`: process every record of the list in
order; a `ClientError` on one record is caught inside the loop body, so
the loop always reaches every record. -/
def delete_certificates_from_s3 (s3Fails : String → Bool)
    (certificates : List Certificate) (dry_run : Bool) : List Event :=
  match certificates with
  | [] => []
  | c :: rest =>
    processCert s3Fails c dry_run ++ delete_certificates_from_s3 s3Fails rest dry_run

/-! ### Lemmas about the inactivity guard -/

lemma checkTablesLoop_true_iff (db : DBState) (oya : Nat) :
    ∀ L : List String, (checkTablesLoop db oya L).1 = true ↔
      ∀ t ∈ L, ∀ a, get_last_activity_date db t = some a → a ≤ oya := by
  intro L
  induction L with
  | nil => simp [checkTablesLoop]
  | cons t rest ih =>
    cases hg : get_last_activity_date db t with
    | none =>
      simp only [checkTablesLoop, hg]
      rw [ih]
      constructor
      · intro hr t' ht' a ha
        rcases List.mem_cons.mp ht' with rfl | ht'
        · rw [hg] at ha; exact absurd ha (by simp)
        · exact hr t' ht' a ha
      · intro hall t' ht' a ha
        exact hall t' (List.mem_cons_of_mem _ ht') a ha
    | some a =>
      simp only [checkTablesLoop, hg]
      by_cases hc : oya < a
      · rw [if_pos hc]
        refine ⟨fun hfalse => (Bool.false_ne_true hfalse).elim, fun hall => ?_⟩
        exact absurd (hall t (List.mem_cons_self t rest) a hg) (not_le.mpr hc)
      · rw [if_neg hc]
        rw [ih]
        constructor
        · intro hr t' ht' a' ha'
          rcases List.mem_cons.mp ht' with rfl | ht'
          · rw [hg] at ha'
            obtain rfl : a = a' := Option.some_injective _ ha'
            exact not_lt.mp hc
          · exact hr t' ht' a' ha'
        · intro hall t' ht' a' ha'
          exact hall t' (List.mem_cons_of_mem _ ht') a' ha'

lemma checkTablesLoop_false (db : DBState) (oya : Nat) :
    ∀ L : List String, (checkTablesLoop db oya L).1 = false →
      ∃ t a, t ∈ L ∧ get_last_activity_date db t = some a ∧ oya < a ∧
        Event.logSkipTable t a ∈ (checkTablesLoop db oya L).2 := by
  intro L
  induction L with
  | nil => intro h; simp [checkTablesLoop] at h
  | cons t rest ih =>
    intro h
    cases hg : get_last_activity_date db t with
    | none =>
      simp only [checkTablesLoop, hg] at h ⊢
      obtain ⟨t', a', ht', hg', hlt', hmem'⟩ := ih h
      exact ⟨t', a', List.mem_cons_of_mem _ ht', hg', hlt', hmem'⟩
    | some a =>
      simp only [checkTablesLoop, hg] at h ⊢
      by_cases hc : oya < a
      · rw [if_pos hc] at h ⊢
        exact ⟨t, a, List.mem_cons_self t rest, hg, hc, by simp⟩
      · rw [if_neg hc] at h ⊢
        obtain ⟨t', a', ht', hg', hlt', hmem'⟩ := ih h
        exact ⟨t', a', List.mem_cons_of_mem _ ht', hg', hlt', hmem'⟩

lemma checkTablesLoop_events (db : DBState) (oya : Nat) :
    ∀ L : List String, ∀ e ∈ (checkTablesLoop db oya L).2,
      (∃ t a, e = Event.logSkipTable t a) ∨ e = Event.logAllInactive := by
  intro L
  induction L with
  | nil =>
    intro e he
    simp [checkTablesLoop] at he
    right; exact he
  | cons t rest ih =>
    intro e he
    cases hg : get_last_activity_date db t with
    | none =>
      simp only [checkTablesLoop, hg] at he
      exact ih e he
    | some a =>
      simp only [checkTablesLoop, hg] at he
      by_cases hc : oya < a
      · rw [if_pos hc] at he
        simp at he
        left; exact ⟨t, a, he⟩
      · rw [if_neg hc] at he
        exact ih e he

/-! ### C1 -/

/-- C1: the guard proceeds (returns `true`) iff every table of the static
drop list is either absent (its fetched activity is `none`) or has a
last-activity timestamp at or before 365 days ago; and whenever it skips,
some table of the list has activity within the last 365 days and the skip
log line names that table and its timestamp. -/
theorem guard_proceeds_iff_all_inactive (db : DBState) (now : Nat) :
    ((check_all_tables_before_proceeding db now).1 = true ↔
      ∀ t ∈ TABLES_TO_DROP, ∀ a, get_last_activity_date db t = some a →
        a ≤ one_year_ago now)
    ∧ ((check_all_tables_before_proceeding db now).1 = false →
      ∃ t a, t ∈ TABLES_TO_DROP ∧ get_last_activity_date db t = some a ∧
        one_year_ago now < a ∧
        Event.logSkipTable t a ∈ (check_all_tables_before_proceeding db now).2) :=
  ⟨checkTablesLoop_true_iff db (one_year_ago now) TABLES_TO_DROP,
   checkTablesLoop_false db (one_year_ago now) TABLES_TO_DROP⟩

/-- A server snapshot where `oauth2_grant` was updated recently. -/
def dbRecent : DBState where
  infoTables := [⟨"mydb", "oauth2_grant", some 40000000, some 50000000⟩]
  constraintOf := fun _ _ _ => none

/-! ### Shape of the events each phase can emit -/

lemma drop_foreign_key_events (db : DBState) (n t r : String) (d : Bool) :
    ∀ e ∈ drop_foreign_key db n t r d,
      (∃ c, e = Event.logWouldDropFK t c) ∨ (∃ c, e = Event.execDropFK t c) ∨
        e = Event.commit ∨ (∃ c, e = Event.logDroppedFK t c) := by
  intro e he
  unfold drop_foreign_key at he
  cases hc : db.constraintOf n t r with
  | none => rw [hc] at he; simp at he
  | some c =>
    rw [hc] at he
    cases d with
    | false =>
      simp at he
      rcases he with rfl | rfl | rfl
      · exact Or.inr (Or.inl ⟨c, rfl⟩)
      · exact Or.inr (Or.inr (Or.inl rfl))
      · exact Or.inr (Or.inr (Or.inr ⟨c, rfl⟩))
    | true =>
      simp at he
      exact Or.inl ⟨c, he⟩

lemma fkLoopRefs_events (db : DBState) (n t : String) (d : Bool) :
    ∀ rs : List String, ∀ e ∈ fkLoopRefs db n t d rs,
      (∃ c, e = Event.logWouldDropFK t c) ∨ (∃ c, e = Event.execDropFK t c) ∨
        e = Event.commit ∨ (∃ c, e = Event.logDroppedFK t c) := by
  intro rs
  induction rs with
  | nil => intro e he; simp [fkLoopRefs] at he
  | cons r rs ih =>
    intro e he
    rcases List.mem_append.mp he with h1 | h2
    · exact drop_foreign_key_events db n t r d e h1
    · exact ih e h2

lemma fkLoop_events (db : DBState) (n : String) (d : Bool) :
    ∀ L : List (String × List String), ∀ e ∈ fkLoop db n d L,
      (∃ t c, e = Event.logWouldDropFK t c) ∨ (∃ t c, e = Event.execDropFK t c) ∨
        e = Event.commit ∨ (∃ t c, e = Event.logDroppedFK t c) := by
  intro L
  induction L with
  | nil => intro e he; simp [fkLoop] at he
  | cons p ps ih =>
    intro e he
    rcases List.mem_append.mp he with h1 | h2
    · rcases fkLoopRefs_events db n p.1 d p.2 e h1 with ⟨c, rfl⟩ | ⟨c, rfl⟩ | rfl | ⟨c, rfl⟩
      · exact Or.inl ⟨p.1, c, rfl⟩
      · exact Or.inr (Or.inl ⟨p.1, c, rfl⟩)
      · exact Or.inr (Or.inr (Or.inl rfl))
      · exact Or.inr (Or.inr (Or.inr ⟨p.1, c, rfl⟩))
    · exact ih e h2

lemma drop_table_events (t : String) (d : Bool) :
    ∀ e ∈ drop_table t d,
      e = Event.logDroppingTable t ∨ e = Event.logWouldDropTable t ∨
        e = Event.execDropTable t ∨ e = Event.commit ∨ e = Event.logDroppedTable t := by
  intro e he
  cases d with
  | false => simp [drop_table] at he; tauto
  | true => simp [drop_table] at he; tauto

lemma tableLoop_events (d : Bool) :
    ∀ L : List String, ∀ e ∈ tableLoop d L,
      (∃ t, e = Event.logDroppingTable t) ∨ (∃ t, e = Event.logWouldDropTable t) ∨
        (∃ t, e = Event.execDropTable t) ∨ e = Event.commit ∨
        (∃ t, e = Event.logDroppedTable t) := by
  intro L
  induction L with
  | nil => intro e he; simp [tableLoop] at he
  | cons t ts ih =>
    intro e he
    rcases List.mem_append.mp he with h1 | h2
    · rcases drop_table_events t d e h1 with rfl | rfl | rfl | rfl | rfl
      · exact Or.inl ⟨t, rfl⟩
      · exact Or.inr (Or.inl ⟨t, rfl⟩)
      · exact Or.inr (Or.inr (Or.inl ⟨t, rfl⟩))
      · exact Or.inr (Or.inr (Or.inr (Or.inl rfl)))
      · exact Or.inr (Or.inr (Or.inr (Or.inr ⟨t, rfl⟩)))
    · exact ih e h2

lemma guard_events_not_drop (db : DBState) (now : Nat) :
    ∀ e ∈ (check_all_tables_before_proceeding db now).2,
      isConstraintDrop e = false ∧ isTableDrop e = false ∧
        e ≠ Event.closeConn ∧ e ≠ Event.logCleanupDone := by
  intro e he
  rcases checkTablesLoop_events db (one_year_ago now) TABLES_TO_DROP e he with
    ⟨t, a, rfl⟩ | rfl <;> simp [isConstraintDrop, isTableDrop]

/-! ### C2 -/

/-- C2: whenever the guard returns skip, the run's trace contains no
`ALTER TABLE ... DROP FOREIGN KEY` statement and no `DROP TABLE`
statement — the batch is all-or-nothing on the guard check. -/
theorem skip_means_no_drop_statements (db : DBState) (db_name : String)
    (dry_run : Bool) (now : Nat)
    (h : (check_all_tables_before_proceeding db now).1 = false) :
    ∀ e ∈ drop_tables db db_name dry_run now,
      isConstraintDrop e = false ∧ isTableDrop e = false := by
  intro e he
  simp only [drop_tables, h, Bool.false_eq_true, if_false] at he
  exact ⟨(guard_events_not_drop db now e he).1, (guard_events_not_drop db now e he).2.1⟩

/-- Concrete instantiation of `skip_means_no_drop_statements` on the
snapshot `dbRecent`, where the guard skips. -/
theorem skip_means_no_drop_statements_witness :
    (check_all_tables_before_proceeding dbRecent 60000000).1 = false ∧
      ∀ e ∈ drop_tables dbRecent "mydb" false 60000000,
        isConstraintDrop e = false ∧ isTableDrop e = false :=
  ⟨by decide, skip_means_no_drop_statements dbRecent "mydb" false 60000000 (by decide)⟩

/-! ### C3 -/

/-- Every event satisfying `P` occurs at a strictly earlier position than
every event satisfying `Q` in the trace. -/
def allBefore (P Q : Event → Bool) (tr : List Event) : Prop :=
  ∀ i j : Fin tr.length, P tr[i.val] = true → Q tr[j.val] = true → i.val < j.val

instance (P Q : Event → Bool) (tr : List Event) : Decidable (allBefore P Q tr) := by
  unfold allBefore; infer_instance

lemma allBefore_append (P Q : Event → Bool) (l₁ l₂ : List Event)
    (h₁ : ∀ e ∈ l₁, Q e = false) (h₂ : ∀ e ∈ l₂, P e = false) :
    allBefore P Q (l₁ ++ l₂) := by
  intro i j hP hQ
  have hilt := i.isLt
  have hjlt := j.isLt
  have hi : i.val < l₁.length := by
    by_contra hge
    push_neg at hge
    have hlt : i.val - l₁.length < l₂.length := by
      simp only [List.length_append] at hilt; omega
    have hget : (l₁ ++ l₂)[i.val] = l₂[i.val - l₁.length] :=
      List.getElem_append_right hge
    rw [hget] at hP
    have := h₂ _ (List.getElem_mem hlt)
    rw [hP] at this
    simp at this
  have hj : l₁.length ≤ j.val := by
    by_contra hlt
    push_neg at hlt
    have hget : (l₁ ++ l₂)[j.val] = l₁[j.val] :=
      List.getElem_append_left hlt
    rw [hget] at hQ
    have := h₁ _ (List.getElem_mem hlt)
    rw [hQ] at this
    simp at this
  omega

/-- C3: in a run that proceeds past the guard, every
`ALTER TABLE ... DROP FOREIGN KEY` statement occurs strictly before every
`DROP TABLE` statement in the trace. -/
theorem fk_drops_precede_table_drops (db : DBState) (db_name : String)
    (dry_run : Bool) (now : Nat)
    (h : (check_all_tables_before_proceeding db now).1 = true) :
    allBefore isConstraintDrop isTableDrop (drop_tables db db_name dry_run now) := by
  have htr : drop_tables db db_name dry_run now =
      ((check_all_tables_before_proceeding db now).2 ++ fkLoop db db_name dry_run FK_DEPENDENCIES)
        ++ (tableLoop dry_run TABLES_TO_DROP ++ [Event.closeConn, Event.logCleanupDone]) := by
    simp [drop_tables, h, List.append_assoc]
  rw [htr]
  apply allBefore_append
  · intro e he
    rcases List.mem_append.mp he with h1 | h2
    · exact (guard_events_not_drop db now e h1).2.1
    · rcases fkLoop_events db db_name dry_run FK_DEPENDENCIES e h2 with
        ⟨t, c, rfl⟩ | ⟨t, c, rfl⟩ | rfl | ⟨t, c, rfl⟩ <;> simp [isTableDrop]
  · intro e he
    rcases List.mem_append.mp he with h1 | h2
    · rcases tableLoop_events dry_run TABLES_TO_DROP e h1 with
        ⟨t, rfl⟩ | ⟨t, rfl⟩ | ⟨t, rfl⟩ | rfl | ⟨t, rfl⟩ <;> simp [isConstraintDrop]
    · simp at h2
      rcases h2 with rfl | rfl <;> simp [isConstraintDrop]

/-- A server snapshot whose tables are all long inactive and where every
dependency-map pair has a live foreign-key constraint named after the
pair. -/
def dbQuiet : DBState where
  infoTables := [⟨"mydb", "oauth2_grant", some 1000, some 2000⟩,
                 ⟨"mydb", "oauth2_client", some 1000, none⟩]
  constraintOf := fun _ t r => some (t ++ "_" ++ r ++ "_fk")

/-- Concrete instantiation of `fk_drops_precede_table_drops` on the quiet
snapshot `dbQuiet`, where the guard proceeds. -/
theorem fk_drops_precede_table_drops_witness :
    (check_all_tables_before_proceeding dbQuiet 60000000).1 = true ∧
      allBefore isConstraintDrop isTableDrop (drop_tables dbQuiet "mydb" false 60000000) :=
  ⟨by decide, fk_drops_precede_table_drops dbQuiet "mydb" false 60000000 (by decide)⟩

/-! ### C9 -/

/-- C9: whenever the guard returns skip, the trace contains neither the
explicit connection close nor the final "cleanup completed successfully"
log line — both happen only inside the proceed branch. -/
theorem skip_means_no_close_no_success_log (db : DBState) (db_name : String)
    (dry_run : Bool) (now : Nat)
    (h : (check_all_tables_before_proceeding db now).1 = false) :
    Event.closeConn ∉ drop_tables db db_name dry_run now ∧
      Event.logCleanupDone ∉ drop_tables db db_name dry_run now := by
  constructor <;> intro hmem <;>
    simp only [drop_tables, h, Bool.false_eq_true, if_false] at hmem
  · exact (guard_events_not_drop db now _ hmem).2.2.1 rfl
  · exact (guard_events_not_drop db now _ hmem).2.2.2 rfl

/-- Concrete instantiation of `skip_means_no_close_no_success_log` on the
snapshot `dbRecent`, where the guard skips. -/
theorem skip_means_no_close_no_success_log_witness :
    (check_all_tables_before_proceeding dbRecent 60000000).1 = false ∧
      (Event.closeConn ∉ drop_tables dbRecent "mydb" true 60000000 ∧
        Event.logCleanupDone ∉ drop_tables dbRecent "mydb" true 60000000) :=
  ⟨by decide, skip_means_no_close_no_success_log dbRecent "mydb" true 60000000 (by decide)⟩

/-- Concrete instantiation of `guard_proceeds_iff_all_inactive`: at time
60000000 the snapshot `dbRecent` makes the guard skip, and the theorem's
conditional conclusion holds there. -/
theorem guard_proceeds_iff_all_inactive_witness :
    (check_all_tables_before_proceeding dbRecent 60000000).1 = false ∧
      ∃ t a, t ∈ TABLES_TO_DROP ∧ get_last_activity_date dbRecent t = some a ∧
        one_year_ago 60000000 < a ∧
        Event.logSkipTable t a ∈ (check_all_tables_before_proceeding dbRecent 60000000).2 :=
  ⟨by decide, (guard_proceeds_iff_all_inactive dbRecent 60000000).2 (by decide)⟩

/-! ### C8 -/

/-- C8: when the KEY_COLUMN_USAGE lookup finds no constraint for a
(table, referenced-table) pair, `drop_foreign_key` emits no event at all
— in particular no mutating statement and no error — and the constraint
loop behaves on the remaining pairs exactly as if the pair were absent. -/
theorem missing_constraint_is_noop (db : DBState) (db_name t r : String) (dry_run : Bool)
    (h : db.constraintOf db_name t r = none) :
    drop_foreign_key db db_name t r dry_run = [] ∧
      (∀ rs : List String, fkLoopRefs db db_name t dry_run (r :: rs) =
        fkLoopRefs db db_name t dry_run rs) := by
  have h1 : drop_foreign_key db db_name t r dry_run = [] := by
    unfold drop_foreign_key; rw [h]
  exact ⟨h1, fun rs => by simp [fkLoopRefs, h1]⟩

/-- Concrete instantiation of `missing_constraint_is_noop` on the snapshot
`dbRecent`, whose constraint lookup always comes back empty. -/
theorem missing_constraint_is_noop_witness :
    dbRecent.constraintOf "mydb" "oauth2_grant" "auth_user" = none ∧
      (drop_foreign_key dbRecent "mydb" "oauth2_grant" "auth_user" false = [] ∧
        ∀ rs : List String, fkLoopRefs dbRecent "mydb" "oauth2_grant" false ("auth_user" :: rs) =
          fkLoopRefs dbRecent "mydb" "oauth2_grant" false rs) :=
  ⟨rfl, missing_constraint_is_noop dbRecent "mydb" "oauth2_grant" "auth_user" false rfl⟩

/-! ### C4 -/

/-- All (table, referenced-table) pairs of the static dependency map, in
iteration order. -/
def fkPairs : List (String × String) :=
  FK_DEPENDENCIES.flatMap (fun p => p.2.map (fun r => (p.1, r)))

/-- Number of dependency-map pairs whose foreign-key constraint actually
exists on the server — the number of constraint drops a run performs. -/
def existingFKPairs (db : DBState) (db_name : String) : Nat :=
  (fkPairs.filter (fun pr => (db.constraintOf db_name pr.1 pr.2).isSome)).length

lemma drop_foreign_key_dry_events (db : DBState) (n t r : String) :
    ∀ e ∈ drop_foreign_key db n t r true, ∃ c, e = Event.logWouldDropFK t c := by
  intro e he
  unfold drop_foreign_key at he
  cases hc : db.constraintOf n t r with
  | none => rw [hc] at he; simp at he
  | some c => rw [hc] at he; simp at he; exact ⟨c, he⟩

lemma fkLoopRefs_dry_events (db : DBState) (n t : String) :
    ∀ rs : List String, ∀ e ∈ fkLoopRefs db n t true rs,
      ∃ c, e = Event.logWouldDropFK t c := by
  intro rs
  induction rs with
  | nil => intro e he; simp [fkLoopRefs] at he
  | cons r rs ih =>
    intro e he
    rcases List.mem_append.mp he with h1 | h2
    · exact drop_foreign_key_dry_events db n t r e h1
    · exact ih e h2

lemma fkLoop_dry_events (db : DBState) (n : String) :
    ∀ L : List (String × List String), ∀ e ∈ fkLoop db n true L,
      ∃ t c, e = Event.logWouldDropFK t c := by
  intro L
  induction L with
  | nil => intro e he; simp [fkLoop] at he
  | cons p ps ih =>
    intro e he
    rcases List.mem_append.mp he with h1 | h2
    · obtain ⟨c, rfl⟩ := fkLoopRefs_dry_events db n p.1 p.2 e h1
      exact ⟨p.1, c, rfl⟩
    · exact ih e h2

lemma tableLoop_dry_events :
    ∀ L : List String, ∀ e ∈ tableLoop true L,
      (∃ t, e = Event.logDroppingTable t) ∨ (∃ t, e = Event.logWouldDropTable t) := by
  intro L
  induction L with
  | nil => intro e he; simp [tableLoop] at he
  | cons t ts ih =>
    intro e he
    rcases List.mem_append.mp he with h1 | h2
    · simp [drop_table] at h1
      rcases h1 with rfl | rfl
      · exact Or.inl ⟨t, rfl⟩
      · exact Or.inr ⟨t, rfl⟩
    · exact ih e h2

lemma delete_certs_dry_events (s3Fails : String → Bool) :
    ∀ certs : List Certificate, ∀ e ∈ delete_certificates_from_s3 s3Fails certs true,
      ∃ k, e = Event.logWouldDelete k := by
  intro certs
  induction certs with
  | nil => intro e he; simp [delete_certificates_from_s3] at he
  | cons c cs ih =>
    intro e he
    rcases List.mem_append.mp he with h1 | h2
    · simp [processCert] at h1
      rcases h1 with rfl | rfl
      · exact ⟨verifyKey c, rfl⟩
      · exact ⟨downloadKey c, rfl⟩
    · exact ih e h2

lemma countP_wouldFK_drop_foreign_key (db : DBState) (n t r : String) :
    (drop_foreign_key db n t r true).countP isWouldDropFKLog =
      if (db.constraintOf n t r).isSome then 1 else 0 := by
  unfold drop_foreign_key
  cases db.constraintOf n t r <;>
    simp [List.countP_cons, isWouldDropFKLog]

lemma countP_wouldFK_fkLoopRefs (db : DBState) (n t : String) :
    ∀ rs : List String,
      (fkLoopRefs db n t true rs).countP isWouldDropFKLog =
        (rs.filter (fun r => (db.constraintOf n t r).isSome)).length := by
  intro rs
  induction rs with
  | nil => simp [fkLoopRefs]
  | cons r rs ih =>
    rw [fkLoopRefs, List.countP_append, ih, countP_wouldFK_drop_foreign_key,
      List.filter_cons]
    cases hc : (db.constraintOf n t r).isSome
    · simp [hc]
    · simp [hc]; omega

lemma countP_wouldFK_fkLoop (db : DBState) (n : String) :
    ∀ L : List (String × List String),
      (fkLoop db n true L).countP isWouldDropFKLog =
        ((L.flatMap (fun p => p.2.map (fun r => (p.1, r)))).filter
          (fun pr => (db.constraintOf n pr.1 pr.2).isSome)).length := by
  intro L
  induction L with
  | nil => simp [fkLoop]
  | cons p ps ih =>
    rw [fkLoop, List.countP_append, ih, countP_wouldFK_fkLoopRefs,
      List.flatMap_cons, List.filter_append, List.length_append]
    congr 1
    rw [List.filter_map, List.length_map]
    rfl

lemma countP_wouldTable_tableLoop :
    ∀ L : List String, (tableLoop true L).countP isWouldDropTableLog = L.length := by
  intro L
  induction L with
  | nil => simp [tableLoop]
  | cons t ts ih =>
    rw [tableLoop, List.countP_append, ih]
    simp [drop_table, List.countP_cons, isWouldDropTableLog]
    omega

lemma delete_certs_dry_count (s3Fails : String → Bool) :
    ∀ certs : List Certificate,
      (delete_certificates_from_s3 s3Fails certs true).countP isWouldDeleteLog =
        2 * certs.length := by
  intro certs
  induction certs with
  | nil => simp [delete_certificates_from_s3]
  | cons c cs ih =>
    rw [delete_certificates_from_s3, List.countP_append, ih]
    simp [processCert, List.countP_cons, isWouldDeleteLog, List.length_cons]
    ring

/-- C4: with the dry-run flag set, neither script's trace contains any
mutating operation (constraint drop, table drop or storage delete), and
every action that would have been taken is announced by exactly one
dry-run log line: one `logWouldDropFK` per dependency-map pair whose
constraint exists, one `logWouldDropTable` per table of the drop list,
and two `logWouldDelete` lines (one per derived key) per certificate
record. -/
theorem dry_run_is_safe (db : DBState) (db_name : String) (now : Nat)
    (s3Fails : String → Bool) (certs : List Certificate) :
    (∀ e ∈ drop_tables db db_name true now, isMutating e = false)
    ∧ (∀ e ∈ delete_certificates_from_s3 s3Fails certs true, isMutating e = false)
    ∧ ((check_all_tables_before_proceeding db now).1 = true →
        (drop_tables db db_name true now).countP isWouldDropFKLog =
          existingFKPairs db db_name ∧
        (drop_tables db db_name true now).countP isWouldDropTableLog =
          TABLES_TO_DROP.length)
    ∧ (delete_certificates_from_s3 s3Fails certs true).countP isWouldDeleteLog =
        2 * certs.length := by
  refine ⟨?_, ?_, ?_, delete_certs_dry_count s3Fails certs⟩
  · intro e he
    by_cases hg : (check_all_tables_before_proceeding db now).1 = true
    · have htr2 : drop_tables db db_name true now =
          (check_all_tables_before_proceeding db now).2 ++
            (fkLoop db db_name true FK_DEPENDENCIES ++
              (tableLoop true TABLES_TO_DROP ++ [Event.closeConn, Event.logCleanupDone])) := by
        simp [drop_tables, hg, List.append_assoc]
      rw [htr2] at he
      rcases List.mem_append.mp he with h1 | h23
      · rcases checkTablesLoop_events db (one_year_ago now) TABLES_TO_DROP e h1 with
          ⟨t, a, rfl⟩ | rfl <;> simp [isMutating, isConstraintDrop, isTableDrop, isStorageDelete]
      · rcases List.mem_append.mp h23 with h2 | h34
        · obtain ⟨t, c, rfl⟩ := fkLoop_dry_events db db_name FK_DEPENDENCIES e h2
          simp [isMutating, isConstraintDrop, isTableDrop, isStorageDelete]
        · rcases List.mem_append.mp h34 with h3 | h4
          · rcases tableLoop_dry_events TABLES_TO_DROP e h3 with ⟨t, rfl⟩ | ⟨t, rfl⟩ <;>
              simp [isMutating, isConstraintDrop, isTableDrop, isStorageDelete]
          · simp at h4
            rcases h4 with rfl | rfl <;>
              simp [isMutating, isConstraintDrop, isTableDrop, isStorageDelete]
    · rw [Bool.not_eq_true] at hg
      simp only [drop_tables, hg, Bool.false_eq_true, if_false] at he
      rcases checkTablesLoop_events db (one_year_ago now) TABLES_TO_DROP e he with
        ⟨t, a, rfl⟩ | rfl <;> simp [isMutating, isConstraintDrop, isTableDrop, isStorageDelete]
  · intro e he
    obtain ⟨k, rfl⟩ := delete_certs_dry_events s3Fails certs e he
    simp [isMutating, isConstraintDrop, isTableDrop, isStorageDelete]
  · intro hg
    have htr : drop_tables db db_name true now =
        (check_all_tables_before_proceeding db now).2 ++
          (fkLoop db db_name true FK_DEPENDENCIES ++
            (tableLoop true TABLES_TO_DROP ++ [Event.closeConn, Event.logCleanupDone])) := by
      simp [drop_tables, hg]
    have hguard0 : ∀ P : Event → Bool,
        (∀ t a, P (Event.logSkipTable t a) = false) → P Event.logAllInactive = false →
        (check_all_tables_before_proceeding db now).2.countP P = 0 := by
      intro P hskip hall
      rw [List.countP_eq_zero]
      intro e he
      rcases checkTablesLoop_events db (one_year_ago now) TABLES_TO_DROP e he with
        ⟨t, a, rfl⟩ | rfl <;> simp [hskip, hall]
    constructor
    · rw [htr]
      rw [List.countP_append, List.countP_append, List.countP_append]
      rw [hguard0 isWouldDropFKLog (fun _ _ => rfl) rfl]
      rw [countP_wouldFK_fkLoop]
      have h0 : (tableLoop true TABLES_TO_DROP).countP isWouldDropFKLog = 0 := by
        rw [List.countP_eq_zero]
        intro e he
        rcases tableLoop_dry_events TABLES_TO_DROP e he with ⟨t, rfl⟩ | ⟨t, rfl⟩ <;>
          simp [isWouldDropFKLog]
      rw [h0]
      simp [existingFKPairs, fkPairs, isWouldDropFKLog, List.countP_cons]
    · rw [htr]
      rw [List.countP_append, List.countP_append, List.countP_append]
      rw [hguard0 isWouldDropTableLog (fun _ _ => rfl) rfl]
      rw [countP_wouldTable_tableLoop]
      have h0 : (fkLoop db db_name true FK_DEPENDENCIES).countP isWouldDropTableLog = 0 := by
        rw [List.countP_eq_zero]
        intro e he
        obtain ⟨t, c, rfl⟩ := fkLoop_dry_events db db_name FK_DEPENDENCIES e he
        simp [isWouldDropTableLog]
      rw [h0]
      simp [isWouldDropTableLog, List.countP_cons]

/-- Concrete instantiation of `dry_run_is_safe` on the quiet snapshot
`dbQuiet`, discharging the proceed hypothesis of the counting conjunct. -/
theorem dry_run_is_safe_witness :
    (check_all_tables_before_proceeding dbQuiet 60000000).1 = true ∧
      ((drop_tables dbQuiet "mydb" true 60000000).countP isWouldDropFKLog =
          existingFKPairs dbQuiet "mydb" ∧
        (drop_tables dbQuiet "mydb" true 60000000).countP isWouldDropTableLog =
          TABLES_TO_DROP.length) :=
  ⟨by decide,
    (dry_run_is_safe dbQuiet "mydb" 60000000 (fun _ => false) []).2.2.1 (by decide)⟩

/-! ### C5 -/

/-- A storage client none of whose deletes fails. -/
def s3AllOk : String → Bool := fun _ => false

lemma delete_certs_filter_no_failures (s3Fails : String → Bool)
    (certs : List Certificate) (h : ∀ k, s3Fails k = false) :
    (delete_certificates_from_s3 s3Fails certs false).filter isStorageDelete =
      certs.flatMap (fun c =>
        [Event.deleteObject "verify.edx.org" ("cert/" ++ c.verify_uuid),
         Event.deleteObject "verify.edx.org"
           ("downloads/" ++ c.download_uuid ++ "/Certificate.pdf")]) := by
  induction certs with
  | nil => simp [delete_certificates_from_s3]
  | cons c cs ih =>
    rw [delete_certificates_from_s3, List.filter_append, ih, List.flatMap_cons]
    congr 1
    simp [processCert, h, isStorageDelete, certBucket, verifyKey, downloadKey,
      List.filter_cons]

/-- C5: with a storage client whose deletes succeed, the delete calls
issued by the certificate remover are, record by record and in order,
exactly the two keys derived from the record's UUIDs —
`cert/{verify_uuid}` and `downloads/{download_uuid}/Certificate.pdf` —
in the fixed bucket `verify.edx.org`. -/
theorem certs_delete_exactly_two_keys (certs : List Certificate) :
    (delete_certificates_from_s3 s3AllOk certs false).filter isStorageDelete =
      certs.flatMap (fun c =>
        [Event.deleteObject "verify.edx.org" ("cert/" ++ c.verify_uuid),
         Event.deleteObject "verify.edx.org"
           ("downloads/" ++ c.download_uuid ++ "/Certificate.pdf")]) :=
  delete_certs_filter_no_failures s3AllOk certs (fun _ => rfl)

/-- A sample certificate record. -/
def certSample : Certificate :=
  ⟨7, "course-v1:edX+DemoX+1T2024", 42, "https://example.org/cert", "d0d0", "v1v1"⟩

/-- A second sample certificate record. -/
def certSample2 : Certificate :=
  ⟨8, "course-v1:edX+DemoX+2T2024", 43, "https://example.org/cert2", "d2d2", "v2v2"⟩

/-! ### C6 -/

lemma logDeleting_mem_delete_certs (s3Fails : String → Bool) :
    ∀ certs : List Certificate, ∀ c ∈ certs,
      Event.logDeleting (verifyKey c) ∈ delete_certificates_from_s3 s3Fails certs false := by
  intro certs
  induction certs with
  | nil => intro c hc; cases hc
  | cons c0 cs ih =>
    intro c hc
    rw [delete_certificates_from_s3]
    rcases List.mem_cons.mp hc with rfl | hmem
    · apply List.mem_append_left
      simp [processCert]
    · exact List.mem_append_right _ (ih c hmem)

lemma errorLog_mem_processCert (s3Fails : String → Bool) (c : Certificate)
    (hf : s3Fails (verifyKey c) = true ∨ s3Fails (downloadKey c) = true) :
    Event.logDeleteError (verifyKey c) (downloadKey c) ∈ processCert s3Fails c false := by
  by_cases hv : s3Fails (verifyKey c) = true
  · simp [processCert, hv]
  · rcases hf with hf | hf
    · exact absurd hf hv
    · rw [Bool.not_eq_true] at hv
      simp [processCert, hv, hf]

lemma errorLog_mem_delete_certs (s3Fails : String → Bool) :
    ∀ certs : List Certificate, ∀ c ∈ certs,
      (s3Fails (verifyKey c) = true ∨ s3Fails (downloadKey c) = true) →
      Event.logDeleteError (verifyKey c) (downloadKey c) ∈
        delete_certificates_from_s3 s3Fails certs false := by
  intro certs
  induction certs with
  | nil => intro c hc; cases hc
  | cons c0 cs ih =>
    intro c hc hf
    rw [delete_certificates_from_s3]
    rcases List.mem_cons.mp hc with rfl | hmem
    · exact List.mem_append_left _ (errorLog_mem_processCert s3Fails c hf)
    · exact List.mem_append_right _ (ih c hmem hf)

/-- C6: whatever deletes fail, every record of the list is reached — its
first "Deleting ... from S3" log line is in the trace — and any record one
of whose deletes fails gets its failure logged by the error line naming
its two keys; the run completes over the whole list. -/
theorem cert_failure_does_not_stop_batch (s3Fails : String → Bool)
    (certs : List Certificate) (c : Certificate) (h : c ∈ certs) :
    Event.logDeleting (verifyKey c) ∈ delete_certificates_from_s3 s3Fails certs false
    ∧ ((s3Fails (verifyKey c) = true ∨ s3Fails (downloadKey c) = true) →
        Event.logDeleteError (verifyKey c) (downloadKey c) ∈
          delete_certificates_from_s3 s3Fails certs false) :=
  ⟨logDeleting_mem_delete_certs s3Fails certs c h,
   errorLog_mem_delete_certs s3Fails certs c h⟩

/-- A storage client that fails exactly on `certSample`'s verify key. -/
def s3FailsVerify : String → Bool := fun k => k == "cert/v1v1"

/-- Concrete instantiation of `cert_failure_does_not_stop_batch`: the
first record's verify delete fails, its error is logged, and the second
record is still processed. -/
theorem cert_failure_does_not_stop_batch_witness :
    certSample2 ∈ [certSample, certSample2] ∧
      Event.logDeleting (verifyKey certSample2) ∈
        delete_certificates_from_s3 s3FailsVerify [certSample, certSample2] false ∧
      Event.logDeleteError (verifyKey certSample) (downloadKey certSample) ∈
        delete_certificates_from_s3 s3FailsVerify [certSample, certSample2] false :=
  ⟨by simp,
   (cert_failure_does_not_stop_batch s3FailsVerify [certSample, certSample2]
      certSample2 (by simp)).1,
   (cert_failure_does_not_stop_batch s3FailsVerify [certSample, certSample2]
      certSample (by simp)).2 (Or.inl (by decide))⟩

/-! ### C10 -/

/-- C10: in a non-dry-run, when a record's verify-key delete fails, the
only storage delete issued while processing that record is the verify one
— the download-key delete of the same record is never attempted — while
every subsequent record is still reached. -/
theorem verify_failure_skips_download_delete (s3Fails : String → Bool)
    (c : Certificate) (rest : List Certificate)
    (h : s3Fails (verifyKey c) = true) :
    (∀ e ∈ processCert s3Fails c false, isStorageDelete e = true →
        e = Event.deleteObject certBucket (verifyKey c))
    ∧ ∀ c' ∈ rest, Event.logDeleting (verifyKey c') ∈
        delete_certificates_from_s3 s3Fails (c :: rest) false := by
  constructor
  · intro e he hdel
    simp [processCert, h] at he
    rcases he with rfl | rfl | rfl
    · simp [isStorageDelete] at hdel
    · rfl
    · simp [isStorageDelete] at hdel
  · intro c' hc'
    rw [delete_certificates_from_s3]
    exact List.mem_append_right _ (logDeleting_mem_delete_certs s3Fails rest c' hc')

/-- Concrete instantiation of `verify_failure_skips_download_delete` on
`certSample`, whose verify delete fails under `s3FailsVerify`. -/
theorem verify_failure_skips_download_delete_witness :
    s3FailsVerify (verifyKey certSample) = true ∧
      ((∀ e ∈ processCert s3FailsVerify certSample false, isStorageDelete e = true →
          e = Event.deleteObject certBucket (verifyKey certSample))
        ∧ ∀ c' ∈ [certSample2], Event.logDeleting (verifyKey c') ∈
            delete_certificates_from_s3 s3FailsVerify [certSample, certSample2] false) :=
  ⟨by decide,
   verify_failure_skips_download_delete s3FailsVerify certSample [certSample2] (by decide)⟩

/-! ### C7 -/

/-- Specification-side variant of `get_last_activity_date`, following the
claim's words: the aggregate ranges only over the target database's rows,
i.e. the filter also requires TABLE_SCHEMA to equal the connected
database's name. -/
def get_last_activity_date_target_schema (db : DBState) (db_name table_name : String) :
    Option Nat :=
  aggActivity (db.infoTables.filter
    (fun r => r.tableSchema == db_name && r.tableName == table_name))

/-- A server holding a same-named table only in a schema other than the
target database `mydb`. -/
def dbOtherSchema : DBState where
  infoTables := [⟨"analytics_copy", "oauth2_client", some 100, none⟩]
  constraintOf := fun _ _ _ => none

/-- Counterexample to C7 as stated: on `dbOtherSchema` the target database
`mydb` has no metadata row for `oauth2_client`, so the claimed value is
"no activity", yet the fetched timestamp is the other schema's row's
activity — the code's query filters on TABLE_NAME only and so depends on
another schema's table of the same name. -/
theorem last_activity_ignores_schema_counterexample :
    get_last_activity_date dbOtherSchema "oauth2_client" = some 100 ∧
      get_last_activity_date_target_schema dbOtherSchema "mydb" "oauth2_client" = none ∧
      get_last_activity_date dbOtherSchema "oauth2_client" ≠
        get_last_activity_date_target_schema dbOtherSchema "mydb" "oauth2_client" := by
  decide

lemma foldl_max_spec (l : List Nat) : ∀ a : Nat,
    (l.foldl max a = a ∨ l.foldl max a ∈ l) ∧ a ≤ l.foldl max a ∧
      ∀ x ∈ l, x ≤ l.foldl max a := by
  induction l with
  | nil => intro a; simp
  | cons y ys ih =>
    intro a
    rw [List.foldl_cons]
    obtain ⟨hmem, hle, hall⟩ := ih (max a y)
    refine ⟨?_, le_trans (le_max_left a y) hle, ?_⟩
    · rcases hmem with h | h
      · rcases max_choice a y with hm | hm
        · exact Or.inl (h.trans hm)
        · exact Or.inr (by rw [h, hm]; exact List.mem_cons_self y ys)
      · exact Or.inr (List.mem_cons_of_mem y h)
    · intro x hx
      rcases List.mem_cons.mp hx with rfl | hx
      · exact le_trans (le_max_right a x) hle
      · exact hall x hx

lemma aggActivity_eq_none_iff (rows : List TableRow) :
    aggActivity rows = none ↔ rows = [] := by
  cases rows <;> simp [aggActivity]

lemma aggActivity_some_spec (rows : List TableRow) (m : Nat)
    (h : aggActivity rows = some m) :
    (∃ r ∈ rows, rowActivity r = m) ∧ ∀ r ∈ rows, rowActivity r ≤ m := by
  cases rows with
  | nil => simp [aggActivity] at h
  | cons r0 rs =>
    rw [aggActivity] at h
    obtain rfl : rs.foldl (fun acc row => max acc (rowActivity row)) (rowActivity r0) = m :=
      Option.some_injective _ h
    have hfold : rs.foldl (fun acc row => max acc (rowActivity row)) (rowActivity r0) =
        (rs.map rowActivity).foldl max (rowActivity r0) := by
      rw [List.foldl_map]
    rw [hfold]
    obtain ⟨hmem, hle, hall⟩ := foldl_max_spec (rs.map rowActivity) (rowActivity r0)
    constructor
    · rcases hmem with h | h
      · exact ⟨r0, List.mem_cons_self r0 rs, h.symm⟩
      · obtain ⟨r, hr, hrv⟩ := List.mem_map.mp h
        exact ⟨r, List.mem_cons_of_mem r0 hr, hrv⟩
    · intro r hr
      rcases List.mem_cons.mp hr with rfl | hr
      · exact hle
      · exact hall (rowActivity r) (List.mem_map_of_mem rowActivity hr)

/-- C7 amended: the fetched last-activity timestamp is the maximum of
`max(CREATE_TIME, UPDATE_TIME)` over every row of the server's
`information_schema.tables` bearing that table name — in any schema, not
only the target database's — and is "no activity" exactly when no schema
on the server has a row of that name; it depends only on the rows bearing
that table name. -/
theorem last_activity_is_max_over_all_schemas (db : DBState) (t : String) :
    (get_last_activity_date db t = none ↔
      ∀ r ∈ db.infoTables, ¬r.tableName = t)
    ∧ (∀ m, get_last_activity_date db t = some m →
        (∃ r ∈ db.infoTables, r.tableName = t ∧ rowActivity r = m) ∧
          ∀ r ∈ db.infoTables, r.tableName = t → rowActivity r ≤ m)
    ∧ (∀ db2 : DBState,
        db.infoTables.filter (fun r => r.tableName == t) =
          db2.infoTables.filter (fun r => r.tableName == t) →
        get_last_activity_date db t = get_last_activity_date db2 t) := by
  refine ⟨?_, ?_, ?_⟩
  · rw [get_last_activity_date, aggActivity_eq_none_iff, List.filter_eq_nil_iff]
    simp
  · intro m hm
    rw [get_last_activity_date] at hm
    obtain ⟨⟨r, hr, hrv⟩, hall⟩ := aggActivity_some_spec _ m hm
    have hr' := List.mem_filter.mp hr
    constructor
    · exact ⟨r, hr'.1, by simpa using hr'.2, hrv⟩
    · intro r2 hr2 hname
      exact hall r2 (List.mem_filter.mpr ⟨hr2, by simpa using hname⟩)
  · intro db2 hfilter
    rw [get_last_activity_date, get_last_activity_date, hfilter]

/-- Concrete instantiation of `last_activity_is_max_over_all_schemas`:
on `dbOtherSchema` the fetched timestamp 100 is attained by a row named
`oauth2_client` and bounds every such row's activity. -/
theorem last_activity_is_max_over_all_schemas_witness :
    get_last_activity_date dbOtherSchema "oauth2_client" = some 100 ∧
      ((∃ r ∈ dbOtherSchema.infoTables, r.tableName = "oauth2_client" ∧ rowActivity r = 100) ∧
        ∀ r ∈ dbOtherSchema.infoTables, r.tableName = "oauth2_client" → rowActivity r ≤ 100) :=
  ⟨by decide,
   (last_activity_is_max_over_all_schemas dbOtherSchema "oauth2_client").2.1 100 (by decide)⟩
